import Mathlib

/-!
Verification development for the PWI skill-orchestration engine
(`pwi/skills/result.py`, `pwi/skills/executor.py`, `pwi/skills/registry.py`).

Modelling conventions, used throughout:

* Python's dynamically-typed values are embedded as the inductive `Value`
  (`None` is `Value.null`).  Python `dict`s are embedded as insertion-ordered
  association lists with unique keys (`PyDict`); `PyDict.set` has Python's
  assignment semantics (replace in place, else append) and `PyDict.get?` is
  `dict.get`.
* Python `float`s are modelled as exact rationals (`ℚ`).  The executor's
  threshold literals `0.8` and `0.5` become `4/5` and `1/2`; every confidence
  value a handler can supply is likewise a rational, so the three routing
  bands have the same structure as in the source.
* Fallible Python code is embedded in `Except PyExc`, where a `PyExc` carries
  the exception type name and a message.  The exact message texts produced by
  the CPython runtime for built-in exceptions (`TypeError` from `len`,
  `float`, ...) are abbreviated; no theorem below depends on those texts.
* Wall-clock quantities (`duration_ms`, `timestamp`) are environmental; the
  model fixes `duration_ms = 0` and uses a constant timestamp string.
  Logging (`_log_execution`, `_log_pipeline`) and the optional notification
  callback are side effects that do not alter any returned value (callback
  exceptions are swallowed by the source), so they are not modelled.
-/

/-- A dynamically-typed Python value (the subset the skills engine handles):
`None`, booleans, ints, floats (as exact rationals), strings, lists, dicts. -/
inductive Value where
  | null : Value
  | bool (b : Bool) : Value
  | int (n : Int) : Value
  | rat (q : ℚ) : Value
  | str (s : String) : Value
  | list (xs : List Value) : Value
  | dict (xs : List (String × Value)) : Value

/-- Insertion-ordered association list with string keys: the model of a
Python `dict` (keys kept unique by `PyDict.set`). -/
abbrev PyDict (α : Type) := List (String × α)

namespace PyDict

/-- Python `d.get(k)` / `d[k]`-presence: first (unique) binding of `k`. -/
def get? {α : Type} : PyDict α → String → Option α
  | [], _ => none
  | (k', v) :: rest, k => if k' = k then some v else get? rest k

/-- Python `d[k] = v`: replace the binding in place if the key is present,
otherwise append it (insertion order). -/
def set {α : Type} : PyDict α → String → α → PyDict α
  | [], k, v => [(k, v)]
  | (k', v') :: rest, k, v =>
      if k' = k then (k, v) :: rest else (k', v') :: set rest k v

@[simp] theorem get?_nil {α : Type} (k : String) : get? ([] : PyDict α) k = none := rfl

theorem get?_cons {α : Type} (k' : String) (v : α) (rest : PyDict α) (k : String) :
    get? ((k', v) :: rest) k = if k' = k then some v else get? rest k := rfl

@[simp] theorem get?_set_self {α : Type} (d : PyDict α) (k : String) (v : α) :
    get? (set d k v) k = some v := by
  induction d with
  | nil => simp [set, get?]
  | cons kv rest ih =>
      by_cases h : kv.1 = k
      · simp [set, get?, h]
      · simp [set, get?, h, ih]

@[simp] theorem get?_set_ne {α : Type} (d : PyDict α) (k k' : String) (v : α)
    (h : k ≠ k') : get? (set d k v) k' = get? d k' := by
  induction d with
  | nil => simp [set, get?, h]
  | cons kv rest ih =>
      by_cases hk : kv.1 = k
      · subst hk
        simp [set, get?, h]
      · simp [set, get?, hk, ih]

end PyDict

/-- A raised Python exception: type name plus message. -/
structure PyExc where
  ty : String
  msg : String
deriving DecidableEq, Repr

/-- Digits of a decimal numeral, or `none` if the character list is empty or
contains a non-digit. -/
def parseDigits? (cs : List Char) : Option Nat :=
  if cs.isEmpty then none
  else
    cs.foldl
      (fun acc c =>
        match acc with
        | none => none
        | some a => if c.isDigit then some (10 * a + (c.toNat - 48)) else none)
      (some 0)

/-- Python `float(s)` on a decimal string literal (optional sign, integer
part, optional fractional part).  Exponents, `inf`/`nan`, underscores and
surrounding whitespace are outside the model; no theorem below feeds a
string into a float coercion. -/
def parseFloat? (s : String) : Option ℚ :=
  let cs := s.toList
  let signed : Int × List Char :=
    match cs with
    | '-' :: r => (-1, r)
    | '+' :: r => (1, r)
    | _ => (1, cs)
  let sign := signed.1
  let body := signed.2
  let ip := body.takeWhile (fun c => c ≠ '.')
  let rest := body.dropWhile (fun c => c ≠ '.')
  match rest with
  | [] => (parseDigits? ip).map (fun n => (sign : ℚ) * n)
  | _ :: fp =>
      if ip.isEmpty && fp.isEmpty then none
      else if (ip.all Char.isDigit) && (fp.all Char.isDigit) then
        let ipv : Nat := (parseDigits? ip).getD 0
        let fpv : Nat := (parseDigits? fp).getD 0
        some ((sign : ℚ) * mkRat (ipv * 10 ^ fp.length + fpv) (10 ^ fp.length))
      else none

/-- Python `float(v)`: numbers and numeric strings convert, `bool` maps to
0/1, everything else raises `TypeError` (message texts abbreviated). -/
def pyFloat : Value → Except PyExc ℚ
  | .rat q => .ok q
  | .int n => .ok (n : ℚ)
  | .bool b => .ok (if b then 1 else 0)
  | .str s =>
      match parseFloat? s with
      | some q => .ok q
      | none => .error ⟨"ValueError", "could not convert string to float: " ++ s⟩
  | .null => .error ⟨"TypeError", "float() argument must be a string or a real number, not NoneType"⟩
  | .list _ => .error ⟨"TypeError", "float() argument must be a string or a real number, not list"⟩
  | .dict _ => .error ⟨"TypeError", "float() argument must be a string or a real number, not dict"⟩

/-- Python `len(v)`: defined for strings, lists and dicts, raises `TypeError`
otherwise. -/
def pyLen : Value → Except PyExc Nat
  | .str s => .ok s.length
  | .list xs => .ok xs.length
  | .dict xs => .ok xs.length
  | .null => .error ⟨"TypeError", "object of type NoneType has no len()"⟩
  | .bool _ => .error ⟨"TypeError", "object of type bool has no len()"⟩
  | .int _ => .error ⟨"TypeError", "object of type int has no len()"⟩
  | .rat _ => .error ⟨"TypeError", "object of type float has no len()"⟩

/-- Python `str(v)` (renderings of floats and containers abbreviated; no
theorem below depends on them). -/
def pyStr : Value → String
  | .str s => s
  | .int n => toString n
  | .bool b => if b then "True" else "False"
  | .null => "None"
  | .rat q => toString q
  | .list _ => "[...]"
  | .dict _ => "{...}"

/-- Stand-in for `datetime.now(timezone.utc).isoformat()`: wall-clock time is
environmental, so the model uses a fixed ISO-8601 string. -/
def nowIsoModel : String := "1970-01-01T00:00:00+00:00"

/-- Outcome of one skill execution (`result.py` `SkillResult`).  The
`errors` and `user_prompt` fields keep the dynamic `Value` type because the
source stores whatever the handler supplied there (`user_prompt = None` is
`Value.null`). -/
structure SkillResult where
  skill_name : String
  success : Bool
  confidence : ℚ
  data : Value
  duration_ms : Int
  timestamp : String
  errors : Value
  requires_user_input : Bool
  user_prompt : Value

namespace SkillResult

/-- Threshold `AUTO_EXECUTE_THRESHOLD = 0.8` (exact rational). -/
def AUTO_EXECUTE_THRESHOLD : ℚ := mkRat 4 5

/-- Threshold `NOTIFY_THRESHOLD = 0.5` (exact rational). -/
def NOTIFY_THRESHOLD : ℚ := mkRat 1 2

/-- Property `is_auto_executable`: `confidence >= 0.8`. -/
def is_auto_executable (r : SkillResult) : Bool :=
  decide (AUTO_EXECUTE_THRESHOLD ≤ r.confidence)

/-- Property `needs_notification`: `0.5 <= confidence < 0.8`. -/
def needs_notification (r : SkillResult) : Bool :=
  decide (NOTIFY_THRESHOLD ≤ r.confidence) && decide (r.confidence < AUTO_EXECUTE_THRESHOLD)

/-- Property `needs_human_review`: `confidence < 0.5 or requires_user_input`. -/
def needs_human_review (r : SkillResult) : Bool :=
  decide (r.confidence < NOTIFY_THRESHOLD) || r.requires_user_input

/-- Method `to_dict`: serialize every field into a plain dict. -/
def to_dict (r : SkillResult) : PyDict Value :=
  [("skill_name", .str r.skill_name),
   ("success", .bool r.success),
   ("confidence", .rat r.confidence),
   ("data", r.data),
   ("duration_ms", .int r.duration_ms),
   ("timestamp", .str r.timestamp),
   ("errors", r.errors),
   ("requires_user_input", .bool r.requires_user_input),
   ("user_prompt", r.user_prompt)]

/-- Decode a string field. -/
def asStr : Value → Option String
  | .str s => some s
  | _ => none

/-- Decode a boolean field. -/
def asBool : Value → Option Bool
  | .bool b => some b
  | _ => none

/-- Decode a numeric field. -/
def asRat : Value → Option ℚ
  | .rat q => some q
  | .int n => some (n : ℚ)
  | _ => none

/-- Decode an integer field. -/
def asInt : Value → Option Int
  | .int n => some n
  | _ => none

/-- Classmethod `from_dict`: reconstruct a result from a plain dict.
`skill_name`, `success` and `confidence` are accessed with `d[...]`
(`KeyError` on absence, modelled as `none`); the remaining keys fall back to
defaults via `d.get`.  Typed decoding is the one place the embedding is
stricter than the dynamically-typed source: a present-but-ill-typed field
yields `none` here, while Python would store the raw value. -/
def from_dict (d : PyDict Value) : Option SkillResult := do
  let sn ← (PyDict.get? d "skill_name").bind asStr
  let su ← (PyDict.get? d "success").bind asBool
  let c ← (PyDict.get? d "confidence").bind asRat
  let dat := (PyDict.get? d "data").getD (.dict [])
  let dur := ((PyDict.get? d "duration_ms").bind asInt).getD 0
  let ts := ((PyDict.get? d "timestamp").bind asStr).getD nowIsoModel
  let errs := (PyDict.get? d "errors").getD (.list [])
  let rui := ((PyDict.get? d "requires_user_input").bind asBool).getD false
  let up := (PyDict.get? d "user_prompt").getD .null
  some { skill_name := sn, success := su, confidence := c, data := dat,
         duration_ms := dur, timestamp := ts, errors := errs,
         requires_user_input := rui, user_prompt := up }

/-- Classmethod `error_result`: the synthesized failure result with a
retry/skip/abort prompt. -/
def error_result (skill_name error_msg : String) : SkillResult :=
  { skill_name := skill_name,
    success := false,
    confidence := 0,
    data := .dict [],
    duration_ms := 0,
    timestamp := nowIsoModel,
    errors := .list [.str error_msg],
    requires_user_input := true,
    user_prompt := .dict
      [("ambiguity_detected", .bool true),
       ("question", .str ("Skill '" ++ skill_name ++ "' failed: " ++ error_msg ++ ". How should we proceed?")),
       ("options", .list
         [.dict [("id", .int 1), ("label", .str "Retry")],
          .dict [("id", .int 2), ("label", .str "Skip this skill")],
          .dict [("id", .int 3), ("label", .str "Abort pipeline")]])] }

end SkillResult

/-- Outcome of awaiting a handler coroutine: a normal return of a dict, or a
raised exception (type name, `str(exc)`). -/
inductive HandlerOutcome where
  | ok (raw : PyDict Value) : HandlerOutcome
  | exc (ty msg : String) : HandlerOutcome

/-- An async skill handler `(skill_name, context) -> dict`, embedded as a
pure function from name and context to its awaited outcome. -/
def SkillHandler : Type := String → PyDict Value → HandlerOutcome

/-- Executor state: the scanned registry's `_skills` dict (only lookup is
relevant to execution), the caller-registered handler dict, and the injected
`graph_store` handle. -/
structure SkillExecutor where
  registry : PyDict Unit
  handlers : String → Option SkillHandler
  graph_store : Value

namespace SkillExecutor

/-- Threshold `THRESHOLD_AUTO = 0.8` (exact rational). -/
def THRESHOLD_AUTO : ℚ := mkRat 4 5

/-- Threshold `THRESHOLD_NOTIFY = 0.5` (exact rational). -/
def THRESHOLD_NOTIFY : ℚ := mkRat 1 2

/-- Method `should_auto_execute`: `confidence >= 0.8`. -/
def should_auto_execute (r : SkillResult) : Bool :=
  decide (THRESHOLD_AUTO ≤ r.confidence)

/-- Method `should_notify`: `0.5 <= confidence < 0.8`. -/
def should_notify (r : SkillResult) : Bool :=
  decide (THRESHOLD_NOTIFY ≤ r.confidence) && decide (r.confidence < THRESHOLD_AUTO)

/-- Method `should_pause`: `confidence < 0.5`. -/
def should_pause (r : SkillResult) : Bool :=
  decide (r.confidence < THRESHOLD_NOTIFY)

/-- Helper `_truncate_data`: preview of the data payload capped at 10
top-level keys.  `len(data)` raises for non-sized values; a sized non-dict
larger than the cap raises `AttributeError` at `data.keys()`. -/
def truncate_data (data : Value) : Except PyExc Value :=
  match pyLen data with
  | .error e => .error e
  | .ok n =>
      if n ≤ 10 then .ok data
      else
        match data with
        | .dict xs =>
            .ok (.dict ((xs.take 10) ++ [("_truncated", .bool true), ("_total_keys", .int (n : Int))]))
        | _ => .error ⟨"AttributeError", "object has no attribute keys"⟩

/-- Method `route_low_confidence`: the structured human-in-the-loop prompt
(the `:.2f` rendering of the confidence is abstracted by `pyStr`). -/
def route_low_confidence (r : SkillResult) : Except PyExc Value :=
  match truncate_data r.data with
  | .error e => .error e
  | .ok preview =>
      .ok (.dict
        [("action", .str "pause_for_human"),
         ("skill_name", .str r.skill_name),
         ("confidence", .rat r.confidence),
         ("errors", r.errors),
         ("ambiguity_detected", .bool true),
         ("question", .str ("Skill '" ++ r.skill_name ++ "' returned confidence "
            ++ pyStr (.rat r.confidence) ++ " (below threshold 0.5). How should we proceed?")),
         ("options", .list
           [.dict [("id", .int 1), ("label", .str "Accept result as-is")],
            .dict [("id", .int 2), ("label", .str "Re-run with more context")],
            .dict [("id", .int 3), ("label", .str "Skip this skill")],
            .dict [("id", .int 4), ("label", .str "Provide manual input")]]),
         ("data_preview", preview)])

/-- Method `_apply_routing`: in the pause band set `requires_user_input` and
populate `user_prompt`; the notify and auto bands only log. -/
def apply_routing (r : SkillResult) : Except PyExc SkillResult :=
  if should_pause r then
    match route_low_confidence r with
    | .error e => .error e
    | .ok prompt => .ok { r with requires_user_input := true, user_prompt := prompt }
  else
    .ok r

/-- The `except` branch of `execute`: a failed result carrying the single
formatted error string `"<ExceptionTypeName>: <message>"`. -/
def exc_branch_result (skill_name ty msg : String) : SkillResult :=
  { skill_name := skill_name,
    success := false,
    confidence := 0,
    data := .dict [],
    duration_ms := 0,
    timestamp := nowIsoModel,
    errors := .list [.str (ty ++ ": " ++ msg)],
    requires_user_input := false,
    user_prompt := .null }

/-- Staticmethod `_default_handler`: placeholder for unregistered skills. -/
def default_handler : SkillHandler := fun skill_name _context =>
  .ok [("confidence", .rat 0),
       ("data", .dict []),
       ("errors", .list [.str ("No handler registered for skill '" ++ skill_name
          ++ "'. Register one via executor.register_handler().")])]

/-- The handler `execute` resolves for a name: the registered one, else the
default (`self._handlers.get(skill_name, self._default_handler)`). -/
def handlerFor (E : SkillExecutor) (name : String) : SkillHandler :=
  (E.handlers name).getD default_handler

/-- The context a handler is invoked with:
`{**context, "graph_store": self.graph_store}`. -/
def handlerCtx (E : SkillExecutor) (ctx : PyDict Value) : PyDict Value :=
  PyDict.set ctx "graph_store" E.graph_store

/-- The `try` block of `execute`: wrap a normal handler return into a
`SkillResult`, turning any raised exception (from the handler itself, from
`float(raw.get("confidence", 0.0))` or from `len(errors)`) into the
`except`-branch result. -/
def wrap_handler_outcome (name : String) (out : HandlerOutcome) : SkillResult :=
  match out with
  | .exc ty msg => exc_branch_result name ty msg
  | .ok raw =>
      match pyFloat ((PyDict.get? raw "confidence").getD (.rat 0)) with
      | .error e => exc_branch_result name e.ty e.msg
      | .ok confidence =>
          let errorsVal := (PyDict.get? raw "errors").getD (.list [])
          match pyLen errorsVal with
          | .error e => exc_branch_result name e.ty e.msg
          | .ok n =>
              { skill_name := name,
                success := n == 0,
                confidence := confidence,
                data := (PyDict.get? raw "data").getD (.dict raw),
                duration_ms := 0,
                timestamp := nowIsoModel,
                errors := errorsVal,
                requires_user_input := false,
                user_prompt := .null }

/-- Method `execute`: registry lookup, handler invocation under error
handling, confidence routing.  A `.error` outcome is an exception escaping
`execute` (the source's routing step runs outside its `try` block). -/
def execute (E : SkillExecutor) (skill_name : String) (context : PyDict Value) :
    Except PyExc SkillResult :=
  match PyDict.get? E.registry skill_name with
  | none =>
      .ok (SkillResult.error_result skill_name
        ("Skill '" ++ skill_name ++ "' not found in registry"))
  | some _ =>
      apply_routing (wrap_handler_outcome skill_name
        (E.handlerFor skill_name skill_name (E.handlerCtx context)))

end SkillExecutor

/-! Helper lemmas about the single-execution path. -/

theorem list_beq_len_zero (es : List Value) : (es.length == 0) = es.isEmpty := by
  cases es <;> rfl

theorem error_result_success (n m : String) : (SkillResult.error_result n m).success = false := rfl

theorem error_result_confidence (n m : String) : (SkillResult.error_result n m).confidence = 0 := rfl

theorem error_result_rui (n m : String) :
    (SkillResult.error_result n m).requires_user_input = true := rfl

theorem error_result_up_shape (n m : String) :
    ∃ xs, (SkillResult.error_result n m).user_prompt = Value.dict xs := ⟨_, rfl⟩

theorem wrap_base_flags (name : String) (out : HandlerOutcome) :
    (SkillExecutor.wrap_handler_outcome name out).requires_user_input = false ∧
    (SkillExecutor.wrap_handler_outcome name out).user_prompt = Value.null := by
  cases out with
  | exc ty msg => exact ⟨rfl, rfl⟩
  | ok raw =>
      cases hf : pyFloat ((PyDict.get? raw "confidence").getD (.rat 0)) with
      | error e =>
          simp only [SkillExecutor.wrap_handler_outcome, hf]
          exact ⟨rfl, rfl⟩
      | ok q =>
          cases hl : pyLen ((PyDict.get? raw "errors").getD (.list [])) with
          | error e =>
              simp only [SkillExecutor.wrap_handler_outcome, hf, hl]
              exact ⟨rfl, rfl⟩
          | ok n =>
              simp [SkillExecutor.wrap_handler_outcome, hf, hl]

theorem truncate_dict_ok (xs : PyDict Value) :
    ∃ v, SkillExecutor.truncate_data (.dict xs) = .ok v := by
  unfold SkillExecutor.truncate_data
  simp only [pyLen]
  by_cases h : xs.length ≤ 10 <;> simp [h]

theorem route_low_ok_shape (r : SkillResult) (p : Value)
    (h : SkillExecutor.route_low_confidence r = .ok p) : ∃ xs, p = Value.dict xs := by
  unfold SkillExecutor.route_low_confidence at h
  cases ht : SkillExecutor.truncate_data r.data with
  | error e => rw [ht] at h; cases h
  | ok preview =>
      rw [ht] at h
      cases h
      exact ⟨_, rfl⟩

theorem route_low_total_of_dict (r : SkillResult) (xs : PyDict Value)
    (hd : r.data = .dict xs) : ∃ p, SkillExecutor.route_low_confidence r = .ok p := by
  unfold SkillExecutor.route_low_confidence
  obtain ⟨v, hv⟩ := truncate_dict_ok xs
  rw [hd, hv]
  exact ⟨_, rfl⟩

theorem apply_routing_spec (r r' : SkillResult)
    (h : SkillExecutor.apply_routing r = .ok r') :
    r'.skill_name = r.skill_name ∧ r'.success = r.success ∧
    r'.confidence = r.confidence ∧ r'.data = r.data ∧ r'.errors = r.errors ∧
    (if r.confidence < SkillExecutor.THRESHOLD_NOTIFY
       then r'.requires_user_input = true ∧ ∃ xs, r'.user_prompt = Value.dict xs
       else r' = r) := by
  unfold SkillExecutor.apply_routing at h
  by_cases hb : SkillExecutor.should_pause r = true
  · rw [if_pos hb] at h
    have hc : r.confidence < SkillExecutor.THRESHOLD_NOTIFY := by
      simpa [SkillExecutor.should_pause] using hb
    cases hr : SkillExecutor.route_low_confidence r with
    | error e => rw [hr] at h; cases h
    | ok prompt =>
        rw [hr] at h
        cases h
        obtain ⟨xs, hxs⟩ := route_low_ok_shape r prompt hr
        exact ⟨rfl, rfl, rfl, rfl, rfl, by rw [if_pos hc]; exact ⟨rfl, xs, hxs⟩⟩
  · rw [if_neg hb] at h
    have hc : ¬ r.confidence < SkillExecutor.THRESHOLD_NOTIFY := by
      simpa [SkillExecutor.should_pause] using hb
    cases h
    exact ⟨rfl, rfl, rfl, rfl, rfl, by rw [if_neg hc]⟩

theorem apply_routing_total_of_dict (r : SkillResult) (xs : PyDict Value)
    (hd : r.data = .dict xs) : ∃ r', SkillExecutor.apply_routing r = .ok r' := by
  unfold SkillExecutor.apply_routing
  by_cases hb : SkillExecutor.should_pause r = true
  · obtain ⟨p, hp⟩ := route_low_total_of_dict r xs hd
    rw [if_pos hb, hp]
    exact ⟨_, rfl⟩
  · rw [if_neg hb]
    exact ⟨r, rfl⟩

/-- The exact error result `execute` synthesizes for an unregistered name. -/
def notFoundResult (skill_name : String) : SkillResult :=
  SkillResult.error_result skill_name
    ("Skill '" ++ skill_name ++ "' not found in registry")

/-- C9: for every `SkillResult` value, serializing with `to_dict` and
reconstructing with `from_dict` is the identity. -/
theorem from_dict_to_dict_id (r : SkillResult) :
    SkillResult.from_dict (r.to_dict) = some r := rfl

/-- C1: every result returned (not raised) by `execute` respects the routing
bands: confidence >= 0.8 is auto-executable with no user input required;
confidence in [0.5, 0.8) needs notification with no user input required;
confidence < 0.5 requires user input with a populated (non-null) prompt. -/
theorem execute_confidence_routing (E : SkillExecutor) (name : String)
    (ctx : PyDict Value) (r : SkillResult)
    (h : E.execute name ctx = .ok r) :
    (SkillResult.AUTO_EXECUTE_THRESHOLD ≤ r.confidence →
      r.is_auto_executable = true ∧ r.requires_user_input = false) ∧
    ((SkillResult.NOTIFY_THRESHOLD ≤ r.confidence ∧
        r.confidence < SkillResult.AUTO_EXECUTE_THRESHOLD) →
      r.needs_notification = true ∧ r.requires_user_input = false) ∧
    (r.confidence < SkillResult.NOTIFY_THRESHOLD →
      r.requires_user_input = true ∧ r.user_prompt ≠ Value.null) := by
  unfold SkillExecutor.execute at h
  cases hreg : PyDict.get? E.registry name with
  | none =>
      rw [hreg] at h
      cases h
      refine ⟨?_, ?_, ?_⟩
      · intro hle
        rw [error_result_confidence] at hle
        exact absurd hle (by decide)
      · intro hband
        have := hband.1
        rw [error_result_confidence] at this
        exact absurd this (by decide)
      · intro _
        refine ⟨error_result_rui _ _, ?_⟩
        obtain ⟨xs, hxs⟩ := error_result_up_shape name
          ("Skill '" ++ name ++ "' not found in registry")
        rw [hxs]
        simp
  | some u =>
      rw [hreg] at h
      have hflags := wrap_base_flags name
        (E.handlerFor name name (E.handlerCtx ctx))
      obtain ⟨h1, h2, h3, h4, h5, h6⟩ := apply_routing_spec _ r h
      by_cases hc : (SkillExecutor.wrap_handler_outcome name
          (E.handlerFor name name (E.handlerCtx ctx))).confidence <
          SkillExecutor.THRESHOLD_NOTIFY
      · rw [if_pos hc] at h6
        obtain ⟨hrui, xs, hup⟩ := h6
        have hrc : r.confidence < SkillExecutor.THRESHOLD_NOTIFY := by
          rw [h3]; exact hc
        refine ⟨?_, ?_, ?_⟩
        · intro hle
          exact absurd (lt_of_le_of_lt hle hrc) (by decide)
        · intro hband
          exact absurd (lt_of_le_of_lt hband.1 hrc) (by decide)
        · intro _
          exact ⟨hrui, by rw [hup]; simp⟩
      · rw [if_neg hc] at h6
        have hrc : ¬ r.confidence < SkillExecutor.THRESHOLD_NOTIFY := by
          rw [h3]; exact hc
        subst h6
        refine ⟨?_, ?_, ?_⟩
        · intro hle
          exact ⟨by simp [SkillResult.is_auto_executable, hle], hflags.1⟩
        · intro hband
          refine ⟨?_, hflags.1⟩
          simp [SkillResult.needs_notification, hband.1, hband.2]
        · intro hlt
          exact absurd hlt hrc

/-- C2: executing a name absent from the registry never raises and returns
the synthesized error result: success=False, confidence=0.0,
requires_user_input=True, and a prompt whose options are
Retry / Skip this skill / Abort pipeline. -/
theorem execute_missing_skill (E : SkillExecutor) (name : String) (ctx : PyDict Value)
    (h : PyDict.get? E.registry name = none) :
    E.execute name ctx = .ok (notFoundResult name) ∧
    (notFoundResult name).success = false ∧
    (notFoundResult name).confidence = 0 ∧
    (notFoundResult name).requires_user_input = true ∧
    (∃ xs, (notFoundResult name).user_prompt = Value.dict xs ∧
      PyDict.get? xs "options" = some (Value.list
        [.dict [("id", .int 1), ("label", .str "Retry")],
         .dict [("id", .int 2), ("label", .str "Skip this skill")],
         .dict [("id", .int 3), ("label", .str "Abort pipeline")]])) := by
  refine ⟨?_, rfl, rfl, rfl, ⟨_, rfl, rfl⟩⟩
  simp only [SkillExecutor.execute, h]
  rfl

/-- C3: a registered handler that raises any exception does not propagate it
out of `execute`; the returned result carries exactly one error string
formatted as the exception type name, a colon and the message, with
success=False and confidence=0.0. -/
theorem execute_handler_exception (E : SkillExecutor) (name : String)
    (ctx : PyDict Value) (ty msg : String) (u : Unit)
    (hreg : PyDict.get? E.registry name = some u)
    (hh : E.handlerFor name name (E.handlerCtx ctx) = .exc ty msg) :
    ∃ r, E.execute name ctx = .ok r ∧
      r.errors = Value.list [Value.str (ty ++ ": " ++ msg)] ∧
      r.success = false ∧ r.confidence = 0 := by
  have hwrap : SkillExecutor.wrap_handler_outcome name
      (E.handlerFor name name (E.handlerCtx ctx)) =
      SkillExecutor.exc_branch_result name ty msg := by
    rw [hh]
    rfl
  obtain ⟨r, hr⟩ := apply_routing_total_of_dict
    (SkillExecutor.exc_branch_result name ty msg) [] rfl
  obtain ⟨f1, f2, f3, f4, f5, f6⟩ := apply_routing_spec _ r hr
  refine ⟨r, ?_, ?_, ?_, ?_⟩
  · simp only [SkillExecutor.execute, hreg, hwrap]
    exact hr
  · rw [f5]; rfl
  · rw [f2]; rfl
  · rw [f3]; rfl

/-- C4 (amended): for a handler that returns normally with a dict whose
confidence entry converts to a float and whose errors entry (defaulted to
the empty list) is a list, any result `execute` produces has success equal
to the emptiness of that errors list, confidence equal to the converted
float (the value itself when the handler supplied a float), and data equal
to the dict's `data` entry, defaulting to the whole returned dict. -/
theorem execute_wraps_wellformed_return (E : SkillExecutor) (name : String)
    (ctx : PyDict Value) (raw : PyDict Value) (q : ℚ) (es : List Value) (u : Unit)
    (hreg : PyDict.get? E.registry name = some u)
    (hh : E.handlerFor name name (E.handlerCtx ctx) = .ok raw)
    (hq : pyFloat ((PyDict.get? raw "confidence").getD (.rat 0)) = .ok q)
    (hes : (PyDict.get? raw "errors").getD (.list []) = .list es)
    (r : SkillResult) (h : E.execute name ctx = .ok r) :
    r.success = es.isEmpty ∧ r.confidence = q ∧
    r.data = (PyDict.get? raw "data").getD (.dict raw) := by
  have hwrap : SkillExecutor.wrap_handler_outcome name
      (E.handlerFor name name (E.handlerCtx ctx)) =
      { skill_name := name, success := es.length == 0, confidence := q,
        data := (PyDict.get? raw "data").getD (.dict raw), duration_ms := 0,
        timestamp := nowIsoModel, errors := .list es,
        requires_user_input := false, user_prompt := .null } := by
    rw [hh]
    simp only [SkillExecutor.wrap_handler_outcome, hq, hes, pyLen]
  simp only [SkillExecutor.execute, hreg, hwrap] at h
  obtain ⟨f1, f2, f3, f4, f5, f6⟩ := apply_routing_spec _ r h
  refine ⟨?_, ?_, ?_⟩
  · rw [f2, list_beq_len_zero]
  · rw [f3]
  · rw [f4]

/-- Executor for the C4 counterexample: the registered handler returns
normally with the dict `{"confidence": None, "errors": []}`. -/
def c4Executor : SkillExecutor :=
  { registry := [("a", ())],
    handlers := fun n =>
      if n = "a" then
        some (fun _ _ => .ok [("confidence", Value.null), ("errors", Value.list [])])
      else none,
    graph_store := .null }

/-- C4 counterexample: the handler returns normally with a dict whose errors
list is empty, so the claim demands success = True; the source instead
raises TypeError at `float(raw.get("confidence", 0.0))` inside the `try`
block and converts it into a failed result, so success is False. -/
theorem execute_verbatim_counterexample :
    (c4Executor.execute "a" []).toOption.map (fun r => r.success) = some false := rfl

/-- Executor for the amended-C4 witness: well-formed handler return with
confidence 0.9, empty errors and an explicit data payload. -/
def c4WitnessExecutor : SkillExecutor :=
  { registry := [("a", ())],
    handlers := fun n =>
      if n = "a" then
        some (fun _ _ => .ok
          [("confidence", Value.rat (mkRat 9 10)),
           ("errors", Value.list []),
           ("data", Value.dict [("k", Value.int 5)])])
      else none,
    graph_store := .null }

/-- The result the amended-C4 witness executor produces. -/
def c4WitnessResult : SkillResult :=
  (c4WitnessExecutor.execute "a" []).toOption.getD (SkillResult.error_result "x" "y")

/-- Witness for the amended C4 at a concrete executor and handler. -/
theorem execute_wraps_wellformed_return_witness :
    c4WitnessResult.success = true ∧ c4WitnessResult.confidence = mkRat 9 10 ∧
    c4WitnessResult.data = Value.dict [("k", Value.int 5)] :=
  execute_wraps_wellformed_return c4WitnessExecutor "a" []
    [("confidence", Value.rat (mkRat 9 10)),
     ("errors", Value.list []),
     ("data", Value.dict [("k", Value.int 5)])]
    (mkRat 9 10) [] () rfl rfl rfl rfl c4WitnessResult rfl

/-- Executor for the C1 witness: registered handler with confidence 0.3. -/
def c1WitnessExecutor : SkillExecutor :=
  { registry := [("a", ())],
    handlers := fun n =>
      if n = "a" then
        some (fun _ _ => .ok [("confidence", Value.rat (mkRat 3 10)), ("data", Value.dict [])])
      else none,
    graph_store := .null }

/-- The result the C1 witness executor produces. -/
def c1WitnessResult : SkillResult :=
  (c1WitnessExecutor.execute "a" []).toOption.getD (SkillResult.error_result "x" "y")

/-- Witness for C1: the pause band of a concrete 0.3-confidence execution. -/
theorem execute_confidence_routing_witness :
    c1WitnessResult.requires_user_input = true ∧ c1WitnessResult.user_prompt ≠ Value.null :=
  (execute_confidence_routing c1WitnessExecutor "a" [] c1WitnessResult rfl).2.2 (by decide)

/-- Executor for the C2 witness: empty registry. -/
def c2WitnessExecutor : SkillExecutor :=
  { registry := [], handlers := fun _ => none, graph_store := .null }

/-- Witness for C2 at a concrete empty-registry executor. -/
theorem execute_missing_skill_witness :
    c2WitnessExecutor.execute "ghost" [] = .ok (notFoundResult "ghost") ∧
    (notFoundResult "ghost").success = false ∧
    (notFoundResult "ghost").confidence = 0 ∧
    (notFoundResult "ghost").requires_user_input = true ∧
    (∃ xs, (notFoundResult "ghost").user_prompt = Value.dict xs ∧
      PyDict.get? xs "options" = some (Value.list
        [.dict [("id", .int 1), ("label", .str "Retry")],
         .dict [("id", .int 2), ("label", .str "Skip this skill")],
         .dict [("id", .int 3), ("label", .str "Abort pipeline")]])) :=
  execute_missing_skill c2WitnessExecutor "ghost" [] rfl

/-- Executor for the C3 witness: registered handler raising ValueError("x"). -/
def c3WitnessExecutor : SkillExecutor :=
  { registry := [("a", ())],
    handlers := fun n => if n = "a" then some (fun _ _ => .exc "ValueError" "x") else none,
    graph_store := .null }

/-- Witness for C3 at a handler raising ValueError("x"). -/
theorem execute_handler_exception_witness :
    ∃ r, c3WitnessExecutor.execute "a" [] = .ok r ∧
      r.errors = Value.list [Value.str ("ValueError" ++ ": " ++ "x")] ∧
      r.success = false ∧ r.confidence = 0 :=
  execute_handler_exception c3WitnessExecutor "a" [] "ValueError" "x" () rfl rfl

/-! Parallel execution (`execute_parallel` over `asyncio.gather`). -/

/-- Shallow copy `dict(context)`: the per-task copy duplicates the top-level
key/value pairs and shares the values, so in this pure embedding it is equal
to the original dict (aliasing effects only exist under mutation, which the
embedding has none of). -/
def pyDictCopy (d : PyDict Value) : PyDict Value := d

/-- First exception among the tasks in completion order: what
`asyncio.gather(..., return_exceptions=False)` propagates. -/
def firstErrAlong (tasks : List (Except PyExc SkillResult)) (order : List Nat) :
    Option PyExc :=
  order.findSome? (fun i =>
    match tasks.get? i with
    | some (.error e) => some e
    | _ => none)

/-- Collect the values of tasks that all succeeded, in input order. -/
def exceptSeq : List (Except PyExc SkillResult) → Except PyExc (List SkillResult)
  | [] => .ok []
  | t :: ts =>
      match t with
      | .error e => .error e
      | .ok r =>
          match exceptSeq ts with
          | .error e => .error e
          | .ok rs => .ok (r :: rs)

/-- Model of `asyncio.gather(*tasks, return_exceptions=False)`: `order` is
the order in which the scheduler completes the tasks (a permutation of the
task indices).  The first exception in completion order propagates;
otherwise the values are returned indexed by input position. -/
def gatherOrdered (tasks : List (Except PyExc SkillResult)) (order : List Nat) :
    Except PyExc (List SkillResult) :=
  match firstErrAlong tasks order with
  | some e => .error e
  | none => exceptSeq tasks

/-- Method `execute_parallel`: one task per name, each executing on a shallow
copy of the shared context, gathered in input order under completion order
`order`. -/
def SkillExecutor.execute_parallel (E : SkillExecutor) (skill_names : List String)
    (context : PyDict Value) (order : List Nat) : Except PyExc (List SkillResult) :=
  gatherOrdered (skill_names.map (fun n => E.execute n (pyDictCopy context))) order

theorem exceptSeq_ok_spec (ts : List (Except PyExc SkillResult)) (rs : List SkillResult)
    (h : exceptSeq ts = .ok rs) :
    rs.length = ts.length ∧ ∀ i, ts.get? i = (rs.get? i).map Except.ok := by
  induction ts generalizing rs with
  | nil =>
      cases h
      exact ⟨rfl, fun i => by cases i <;> rfl⟩
  | cons t ts ih =>
      cases t with
      | error e =>
          simp only [exceptSeq] at h
          exact Except.noConfusion h
      | ok r =>
          simp only [exceptSeq] at h
          cases hs : exceptSeq ts with
          | error e => rw [hs] at h; cases h
          | ok rs' =>
              rw [hs] at h
              cases h
              obtain ⟨hl, hg⟩ := ih rs' hs
              refine ⟨by simp [hl], fun i => ?_⟩
              cases i with
              | zero => rfl
              | succ j => exact hg j

/-- C5: whenever `execute_parallel` returns a list (for any completion order
that is a permutation of the task indices), the list has the same length as
the input name list and its i-th element is the result of executing the i-th
name on a shallow copy of the shared context -- input order, not completion
order, determines positions. -/
theorem execute_parallel_positional (E : SkillExecutor) (names : List String)
    (ctx : PyDict Value) (order : List Nat)
    (_hperm : order.Perm (List.range names.length))
    (rs : List SkillResult)
    (h : E.execute_parallel names ctx order = .ok rs) :
    rs.length = names.length ∧
    ∀ i n, names.get? i = some n →
      ∃ r, E.execute n (pyDictCopy ctx) = .ok r ∧ rs.get? i = some r := by
  unfold SkillExecutor.execute_parallel gatherOrdered at h
  cases hfe : firstErrAlong (names.map fun n => E.execute n (pyDictCopy ctx)) order with
  | some e => rw [hfe] at h; cases h
  | none =>
      rw [hfe] at h
      obtain ⟨hlen, hget⟩ := exceptSeq_ok_spec _ rs h
      constructor
      · rw [hlen, List.length_map]
      · intro i n hn
        have hti : (names.map fun n => E.execute n (pyDictCopy ctx)).get? i =
            some (E.execute n (pyDictCopy ctx)) := by
          rw [List.get?_map, hn]
          rfl
        have hgi := hget i
        rw [hti] at hgi
        cases hri : rs.get? i with
        | none => rw [hri] at hgi; cases hgi
        | some r =>
            rw [hri] at hgi
            simp only [Option.map_some'] at hgi
            exact ⟨r, Option.some.inj hgi, rfl⟩

/-- Executor for the C5 witness: two registered handlers. -/
def c5WitnessExecutor : SkillExecutor :=
  { registry := [("a", ()), ("b", ())],
    handlers := fun n =>
      if n = "a" then some (fun _ _ => .ok [("confidence", Value.rat (mkRat 9 10))])
      else if n = "b" then some (fun _ _ => .ok [("confidence", Value.rat (mkRat 6 10))])
      else none,
    graph_store := .null }

/-- Results of the C5 witness run, with completion order [1, 0] (task "b"
finishes before task "a"). -/
def c5WitnessResults : List SkillResult :=
  (c5WitnessExecutor.execute_parallel ["a", "b"] [] [1, 0]).toOption.getD []

/-- Witness for C5: with reversed completion order, position 1 still holds
the result of executing "b". -/
theorem execute_parallel_positional_witness :
    ∃ r, c5WitnessExecutor.execute "b" (pyDictCopy []) = .ok r ∧
      c5WitnessResults.get? 1 = some r :=
  (execute_parallel_positional c5WitnessExecutor ["a", "b"] [] [1, 0]
    (by decide) c5WitnessResults rfl).2 1 "b" rfl

/-! Pipeline execution (`execute_pipeline`). -/

/-- A pipeline step: a dict with exactly one recognized key, embedded as a
tagged variant (`{"parallel": names}` / `{"sequential": names}`); a step
with neither key is `unknown` and is skipped with a warning. -/
inductive PipelineStep where
  | parallel (skill_names : List String) : PipelineStep
  | sequential (skill_names : List String) : PipelineStep
  | unknown : PipelineStep

/-- Model of `running_context.setdefault("prior_results", {})[name] = rd`:
store the serialized result under the skill name inside `prior_results`
(created on first use).  A caller-supplied non-dict `prior_results` value
raises `TypeError` at the item assignment. -/
def storePrior (ctx : PyDict Value) (name : String) (rd : PyDict Value) :
    Except PyExc (PyDict Value) :=
  match (PyDict.get? ctx "prior_results").getD (.dict []) with
  | .dict pr =>
      .ok (PyDict.set ctx "prior_results" (.dict (PyDict.set pr name (.dict rd))))
  | _ => .error ⟨"TypeError", "prior_results does not support item assignment"⟩

/-- The `"sequential"` arm of a pipeline step: run the names one at a time,
feeding each completed result into `prior_results` before the next name of
the same step starts.  The first component is the trace of
`(name, running context at the moment that name is executed)` pairs; an
escaping exception cuts the run (and the trace) short. -/
def SkillExecutor.runSequential (E : SkillExecutor) :
    List String → PyDict Value →
    List (String × PyDict Value) × Except PyExc (List SkillResult × PyDict Value)
  | [], ctx => ([], .ok ([], ctx))
  | n :: rest, ctx =>
      match E.execute n ctx with
      | .error e => ([(n, ctx)], .error e)
      | .ok r =>
          match storePrior ctx n r.to_dict with
          | .error e => ([(n, ctx)], .error e)
          | .ok ctx' =>
              let res := E.runSequential rest ctx'
              ((n, ctx) :: res.1,
               match res.2 with
               | .error e => .error e
               | .ok (rs, ctxF) => .ok (r :: rs, ctxF))

/-- The accumulate loop run after every step (`for r in step_results`):
merge each result into `prior_results` and collect the names of the results
with `success = False`, in order. -/
def accumStep : PyDict Value → List SkillResult →
    Except PyExc (PyDict Value × List String)
  | ctx, [] => .ok (ctx, [])
  | ctx, r :: rs =>
      match storePrior ctx r.skill_name r.to_dict with
      | .error e => .error e
      | .ok ctx' =>
          match accumStep ctx' rs with
          | .error e => .error e
          | .ok (ctxF, f) =>
              .ok (ctxF, (if r.success then [] else [r.skill_name]) ++ f)

/-- The step loop of `execute_pipeline`.  The first component records, for
every step that was reached, the running context at step entry and the
step's results (empty for skipped or aborted steps); the second carries the
accumulated results, failed names and final context.  Parallel steps use the
canonical in-order completion (`execute_parallel_positional` shows the
returned results do not depend on the completion order). -/
def SkillExecutor.runPipeline (E : SkillExecutor) :
    List PipelineStep → PyDict Value →
    List (PyDict Value × List SkillResult) ×
      Except PyExc (List SkillResult × List String × PyDict Value)
  | [], ctx => ([], .ok ([], [], ctx))
  | step :: rest, ctx =>
      match step with
      | .unknown =>
          let res := E.runPipeline rest ctx
          ((ctx, []) :: res.1, res.2)
      | .parallel names =>
          match E.execute_parallel names ctx (List.range names.length) with
          | .error e => ([(ctx, [])], .error e)
          | .ok rs =>
              match accumStep ctx rs with
              | .error e => ([(ctx, rs)], .error e)
              | .ok (ctx2, f) =>
                  let res := E.runPipeline rest ctx2
                  ((ctx, rs) :: res.1,
                   match res.2 with
                   | .error e => .error e
                   | .ok (rs', f', ctxF) => .ok (rs ++ rs', f ++ f', ctxF))
      | .sequential names =>
          match (E.runSequential names ctx).2 with
          | .error e => ([(ctx, [])], .error e)
          | .ok (rs, ctx1) =>
              match accumStep ctx1 rs with
              | .error e => ([(ctx, rs)], .error e)
              | .ok (ctx2, f) =>
                  let res := E.runPipeline rest ctx2
                  ((ctx, rs) :: res.1,
                   match res.2 with
                   | .error e => .error e
                   | .ok (rs', f', ctxF) => .ok (rs ++ rs', f ++ f', ctxF))

/-- The summary dict `execute_pipeline` returns (`total_ms` is wall-clock
and fixed to 0 in the model). -/
structure PipelineSummary where
  results : PyDict Value
  failed : List String
  total_ms : Int
  skills_executed : Nat
  skills_succeeded : Nat
  requires_user_input : List String

/-- Method `execute_pipeline`: run the steps in order over a copy of the
initial context and build the summary. -/
def SkillExecutor.execute_pipeline (E : SkillExecutor) (pipeline : List PipelineStep)
    (context : PyDict Value) : Except PyExc PipelineSummary :=
  match (E.runPipeline pipeline (pyDictCopy context)).2 with
  | .error e => .error e
  | .ok (allResults, failed, _) =>
      .ok { results := allResults.foldl
              (fun d r => PyDict.set d r.skill_name (.dict r.to_dict)) [],
            failed := failed,
            total_ms := 0,
            skills_executed := allResults.length,
            skills_succeeded := (allResults.filter (fun r => r.success)).length,
            requires_user_input :=
              (allResults.filter (fun r => r.requires_user_input)).map
                (fun r => r.skill_name) }

/-- What a handler observes at `context["prior_results"][k]`: the stored
entry, `none` when absent (or when `prior_results` is not a dict). -/
def priorLookup (ctx : PyDict Value) (k : String) : Option Value :=
  match (PyDict.get? ctx "prior_results").getD (.dict []) with
  | .dict pr => PyDict.get? pr k
  | _ => none

/-! Lemmas about `storePrior`, `priorLookup` and the pipeline runners. -/

theorem priorLookup_eq_of_dict (ctx : PyDict Value) (p0 : PyDict Value) (k : String)
    (hp : (PyDict.get? ctx "prior_results").getD (.dict []) = .dict p0) :
    priorLookup ctx k = PyDict.get? p0 k := by
  unfold priorLookup
  rw [hp]

theorem priorLookup_handlerCtx (E : SkillExecutor) (ctx : PyDict Value) (k : String) :
    priorLookup (E.handlerCtx ctx) k = priorLookup ctx k := by
  unfold SkillExecutor.handlerCtx priorLookup
  rw [PyDict.get?_set_ne ctx "graph_store" "prior_results" E.graph_store (by decide)]

theorem storePrior_ok_of_dict (ctx : PyDict Value) (p0 : PyDict Value) (name : String)
    (rd : PyDict Value)
    (hp : (PyDict.get? ctx "prior_results").getD (.dict []) = .dict p0) :
    storePrior ctx name rd =
      .ok (PyDict.set ctx "prior_results" (.dict (PyDict.set p0 name (.dict rd)))) := by
  unfold storePrior
  rw [hp]

theorem getD_prior_after_set (ctx : PyDict Value) (pr : PyDict Value) :
    (PyDict.get? (PyDict.set ctx "prior_results" (.dict pr)) "prior_results").getD (.dict [])
      = .dict pr := by
  rw [PyDict.get?_set_self]
  rfl

theorem storePrior_lookup_self (ctx : PyDict Value) (name : String) (rd : PyDict Value)
    (ctx' : PyDict Value) (h : storePrior ctx name rd = .ok ctx') :
    priorLookup ctx' name = some (.dict rd) := by
  unfold storePrior at h
  cases hpv : (PyDict.get? ctx "prior_results").getD (.dict []) <;> rw [hpv] at h <;>
    try exact Except.noConfusion h
  case dict pr =>
      cases h
      rw [priorLookup_eq_of_dict _ (PyDict.set pr name (.dict rd)) name
        (getD_prior_after_set ctx (PyDict.set pr name (.dict rd)))]
      exact PyDict.get?_set_self pr name (.dict rd)

theorem storePrior_lookup_ne (ctx : PyDict Value) (name : String) (rd : PyDict Value)
    (ctx' : PyDict Value) (h : storePrior ctx name rd = .ok ctx')
    (k : String) (hk : k ≠ name) : priorLookup ctx' k = priorLookup ctx k := by
  unfold storePrior at h
  cases hpv : (PyDict.get? ctx "prior_results").getD (.dict []) <;> rw [hpv] at h <;>
    try exact Except.noConfusion h
  case dict pr =>
      cases h
      rw [priorLookup_eq_of_dict _ (PyDict.set pr name (.dict rd)) k
        (getD_prior_after_set ctx (PyDict.set pr name (.dict rd)))]
      rw [priorLookup_eq_of_dict ctx pr k hpv]
      exact PyDict.get?_set_ne pr name k (.dict rd) (fun hnk => hk hnk.symm)

theorem runSequential_trace (E : SkillExecutor) (names : List String) :
    ∀ (ctx p0 : PyDict Value),
      (PyDict.get? ctx "prior_results").getD (.dict []) = .dict p0 →
      names.Nodup →
      (∀ n ∈ names, PyDict.get? p0 n = none) →
      ∀ (tr : List (String × PyDict Value)) (rs : List SkillResult) (ctxF : PyDict Value),
        E.runSequential names ctx = (tr, .ok (rs, ctxF)) →
        ∀ (j : Nat) (nj : String) (cj : PyDict Value), tr.get? j = some (nj, cj) →
          (∀ i ni, i < j → names.get? i = some ni →
            ∃ ri, rs.get? i = some ri ∧ priorLookup cj ni = some (.dict ri.to_dict)) ∧
          (∀ k nk, j ≤ k → names.get? k = some nk → priorLookup cj nk = none) ∧
          (∀ s v, s ∉ names → priorLookup ctx s = some v → priorLookup cj s = some v) := by
  induction names with
  | nil =>
      intro ctx p0 _ _ _ tr rs ctxF hrun j nj cj htr
      simp only [SkillExecutor.runSequential] at hrun
      injection hrun with h1 h2
      subst h1
      simp at htr
  | cons n rest ih =>
      intro ctx p0 hp hnd hfresh tr rs ctxF hrun j nj cj htr
      simp only [SkillExecutor.runSequential] at hrun
      cases hex : E.execute n ctx with
      | error e =>
          simp only [hex] at hrun
          injection hrun with h1 h2
          exact Except.noConfusion h2
      | ok r =>
          simp only [hex] at hrun
          simp only [storePrior_ok_of_dict ctx p0 n r.to_dict hp] at hrun
          cases hres : (E.runSequential rest
              (PyDict.set ctx "prior_results"
                (.dict (PyDict.set p0 n (.dict r.to_dict))))).2 with
          | error e =>
              simp only [hres] at hrun
              injection hrun with h1 h2
              exact Except.noConfusion h2
          | ok p =>
              obtain ⟨rs', ctxF'⟩ := p
              simp only [hres] at hrun
              injection hrun with h1 h2
              injection h2 with h2
              injection h2 with h2a h2b
              subst h1
              subst h2a
              have hnd' := List.nodup_cons.mp hnd
              cases j with
              | zero =>
                  rw [List.get?_cons_zero] at htr
                  injection htr with hpair
                  injection hpair with hn1 hc1
                  subst hc1
                  refine ⟨?_, ?_, ?_⟩
                  · intro i ni hi _
                    exact absurd hi (Nat.not_lt_zero i)
                  · intro k nk _ hk
                    rw [priorLookup_eq_of_dict ctx p0 nk hp]
                    exact hfresh nk (List.get?_mem hk)
                  · intro s v _ hs
                    exact hs
              | succ j' =>
                  rw [List.get?_cons_succ] at htr
                  have hp' : (PyDict.get?
                      (PyDict.set ctx "prior_results"
                        (.dict (PyDict.set p0 n (.dict r.to_dict)))) "prior_results").getD
                      (.dict []) = .dict (PyDict.set p0 n (.dict r.to_dict)) :=
                    getD_prior_after_set ctx (PyDict.set p0 n (.dict r.to_dict))
                  have hfresh' : ∀ m ∈ rest,
                      PyDict.get? (PyDict.set p0 n (.dict r.to_dict)) m = none := by
                    intro m hm
                    have hmn : n ≠ m := fun he => hnd'.1 (he ▸ hm)
                    rw [PyDict.get?_set_ne p0 n m (.dict r.to_dict) hmn]
                    exact hfresh m (List.mem_cons_of_mem n hm)
                  have hrun' : E.runSequential rest
                      (PyDict.set ctx "prior_results"
                        (.dict (PyDict.set p0 n (.dict r.to_dict)))) =
                      ((E.runSequential rest
                        (PyDict.set ctx "prior_results"
                          (.dict (PyDict.set p0 n (.dict r.to_dict))))).1,
                       .ok (rs', ctxF')) := by
                    rw [← hres]
                  obtain ⟨ha, hb, hc⟩ := ih _ _ hp' hnd'.2 hfresh' _ rs' ctxF' hrun' j' nj cj htr
                  refine ⟨?_, ?_, ?_⟩
                  · intro i ni hi hni
                    cases i with
                    | zero =>
                        rw [List.get?_cons_zero] at hni
                        injection hni with hni
                        subst hni
                        refine ⟨r, rfl, ?_⟩
                        have hstart : priorLookup
                            (PyDict.set ctx "prior_results"
                              (.dict (PyDict.set p0 n (.dict r.to_dict)))) n =
                            some (.dict r.to_dict) := by
                          rw [priorLookup_eq_of_dict _ (PyDict.set p0 n (.dict r.to_dict)) n
                            (getD_prior_after_set ctx (PyDict.set p0 n (.dict r.to_dict)))]
                          exact PyDict.get?_set_self p0 n (.dict r.to_dict)
                        exact hc n (.dict r.to_dict) hnd'.1 hstart
                    | succ i' =>
                        rw [List.get?_cons_succ] at hni
                        obtain ⟨ri, hri, hpl⟩ := ha i' ni (Nat.lt_of_succ_lt_succ hi) hni
                        refine ⟨ri, ?_, hpl⟩
                        rw [List.get?_cons_succ]
                        exact hri
                  · intro k nk hk hkn
                    cases k with
                    | zero => exact absurd hk (Nat.not_succ_le_zero j')
                    | succ k' =>
                        rw [List.get?_cons_succ] at hkn
                        exact hb k' nk (Nat.le_of_succ_le_succ hk) hkn
                  · intro s v hs hv
                    have hsn : s ≠ n := fun he => hs (he ▸ List.mem_cons_self n rest)
                    have hsr : s ∉ rest := fun hm => hs (List.mem_cons_of_mem n hm)
                    refine hc s v hsr ?_
                    rw [priorLookup_eq_of_dict _ (PyDict.set p0 n (.dict r.to_dict)) s
                      (getD_prior_after_set ctx (PyDict.set p0 n (.dict r.to_dict)))]
                    rw [PyDict.get?_set_ne p0 n s (.dict r.to_dict) (fun he => hsn he.symm)]
                    rw [priorLookup_eq_of_dict ctx p0 s hp] at hv
                    exact hv

theorem accum_preserves (rs : List SkillResult) :
    ∀ (ctx ctx' : PyDict Value) (f : List String),
      accumStep ctx rs = .ok (ctx', f) →
      ∀ s, (∀ r ∈ rs, r.skill_name ≠ s) → priorLookup ctx' s = priorLookup ctx s := by
  induction rs with
  | nil =>
      intro ctx ctx' f h s _
      simp only [accumStep] at h
      injection h with h
      injection h with h1 h2
      rw [← h1]
  | cons r rest ih =>
      intro ctx ctx' f h s hs
      simp only [accumStep] at h
      cases hst : storePrior ctx r.skill_name r.to_dict with
      | error e => simp only [hst] at h; exact Except.noConfusion h
      | ok c1 =>
          simp only [hst] at h
          cases hacc : accumStep c1 rest with
          | error e => simp only [hacc] at h; exact Except.noConfusion h
          | ok p =>
              obtain ⟨cF, f'⟩ := p
              simp only [hacc] at h
              injection h with h
              injection h with h1 h2
              rw [← h1]
              rw [ih c1 cF f' hacc s (fun r' hr' => hs r' (List.mem_cons_of_mem r hr'))]
              exact storePrior_lookup_ne ctx r.skill_name r.to_dict c1 hst s
                (fun he => hs r (List.mem_cons_self r rest) he.symm)

theorem accum_lookup (rs : List SkillResult) :
    ∀ (ctx ctx' : PyDict Value) (f : List String),
      accumStep ctx rs = .ok (ctx', f) →
      (rs.map (fun r => r.skill_name)).Nodup →
      ∀ r ∈ rs, priorLookup ctx' r.skill_name = some (.dict r.to_dict) := by
  induction rs with
  | nil =>
      intro ctx ctx' f _ _ r hr
      simp at hr
  | cons r0 rest ih =>
      intro ctx ctx' f h hnd r hr
      simp only [accumStep] at h
      cases hst : storePrior ctx r0.skill_name r0.to_dict with
      | error e => simp only [hst] at h; exact Except.noConfusion h
      | ok c1 =>
          simp only [hst] at h
          cases hacc : accumStep c1 rest with
          | error e => simp only [hacc] at h; exact Except.noConfusion h
          | ok p =>
              obtain ⟨cF, f'⟩ := p
              simp only [hacc] at h
              injection h with h
              injection h with h1 h2
              subst h1
              have hnd' : (∀ x ∈ rest, ¬ x.skill_name = r0.skill_name) ∧
                  (List.map (fun r => r.skill_name) rest).Nodup := by simpa using hnd
              rcases List.mem_cons.mp hr with heq | hr'
              · rw [heq]
                have hne : ∀ r' ∈ rest, r'.skill_name ≠ r0.skill_name :=
                  fun r' hr' he => hnd'.1 r' hr' he
                rw [accum_preserves rest c1 cF f' hacc r0.skill_name hne]
                exact storePrior_lookup_self ctx r0.skill_name r0.to_dict c1 hst
              · exact ih c1 cF f' hacc hnd'.2 r hr'

theorem head_some {α : Type} (x : α) (l : List α) (y : α)
    (h : (x :: l).get? 0 = some y) : x = y := by
  rw [List.get?_cons_zero] at h
  exact Option.some.inj h

theorem runPipeline_first_record (E : SkillExecutor) (steps : List PipelineStep)
    (ctx c : PyDict Value) (rs : List SkillResult)
    (h : (E.runPipeline steps ctx).1.get? 0 = some (c, rs)) : c = ctx := by
  cases steps with
  | nil => simp [SkillExecutor.runPipeline] at h
  | cons step rest =>
      cases step with
      | unknown =>
          simp only [SkillExecutor.runPipeline] at h
          exact (congrArg Prod.fst (head_some _ _ _ h)).symm
      | parallel names =>
          simp only [SkillExecutor.runPipeline] at h
          cases hep : E.execute_parallel names ctx (List.range names.length) with
          | error e =>
              simp only [hep] at h
              exact (congrArg Prod.fst (head_some _ _ _ h)).symm
          | ok rs0 =>
              simp only [hep] at h
              cases hac : accumStep ctx rs0 with
              | error e =>
                  simp only [hac] at h
                  exact (congrArg Prod.fst (head_some _ _ _ h)).symm
              | ok p =>
                  obtain ⟨ctx2, f⟩ := p
                  simp only [hac] at h
                  exact (congrArg Prod.fst (head_some _ _ _ h)).symm
      | sequential names =>
          simp only [SkillExecutor.runPipeline] at h
          cases hsq : (E.runSequential names ctx).2 with
          | error e =>
              simp only [hsq] at h
              exact (congrArg Prod.fst (head_some _ _ _ h)).symm
          | ok p =>
              obtain ⟨rs0, ctx1⟩ := p
              simp only [hsq] at h
              cases hac : accumStep ctx1 rs0 with
              | error e =>
                  simp only [hac] at h
                  exact (congrArg Prod.fst (head_some _ _ _ h)).symm
              | ok p2 =>
                  obtain ⟨ctx2, f⟩ := p2
                  simp only [hac] at h
                  exact (congrArg Prod.fst (head_some _ _ _ h)).symm

theorem runPipeline_merge (E : SkillExecutor) (steps : List PipelineStep) :
    ∀ (ctx : PyDict Value) (m : Nat) (cm cm1 : PyDict Value)
      (rsm rsm1 : List SkillResult),
      (E.runPipeline steps ctx).1.get? m = some (cm, rsm) →
      (E.runPipeline steps ctx).1.get? (m + 1) = some (cm1, rsm1) →
      (rsm.map (fun r => r.skill_name)).Nodup →
      ∀ r ∈ rsm, priorLookup cm1 r.skill_name = some (.dict r.to_dict) := by
  induction steps with
  | nil =>
      intro ctx m cm cm1 rsm rsm1 h0 _ _ r _
      simp [SkillExecutor.runPipeline] at h0
  | cons step rest ih =>
      intro ctx m cm cm1 rsm rsm1 h0 h1 hnd r hr
      cases step with
      | unknown =>
          simp only [SkillExecutor.runPipeline] at h0 h1
          cases m with
          | zero =>
              have hhead := head_some _ _ _ h0
              injection hhead with _ hb
              rw [← hb] at hr
              simp at hr
          | succ m' =>
              rw [List.get?_cons_succ] at h0 h1
              exact ih ctx m' cm cm1 rsm rsm1 h0 h1 hnd r hr
      | parallel names =>
          simp only [SkillExecutor.runPipeline] at h0 h1
          cases hep : E.execute_parallel names ctx (List.range names.length) with
          | error e =>
              simp only [hep] at h1
              rw [List.get?_cons_succ] at h1
              simp at h1
          | ok rs0 =>
              simp only [hep] at h0 h1
              cases hac : accumStep ctx rs0 with
              | error e =>
                  simp only [hac] at h1
                  rw [List.get?_cons_succ] at h1
                  simp at h1
              | ok p =>
                  obtain ⟨ctx2, f⟩ := p
                  simp only [hac] at h0 h1
                  cases m with
                  | zero =>
                      have hhead := head_some _ _ _ h0
                      injection hhead with _ hb
                      rw [List.get?_cons_succ] at h1
                      have hc1 : cm1 = ctx2 :=
                        runPipeline_first_record E rest ctx2 cm1 rsm1 h1
                      rw [← hb] at hnd hr
                      rw [hc1]
                      exact accum_lookup rs0 ctx ctx2 f hac hnd r hr
                  | succ m' =>
                      rw [List.get?_cons_succ] at h0 h1
                      exact ih ctx2 m' cm cm1 rsm rsm1 h0 h1 hnd r hr
      | sequential names =>
          simp only [SkillExecutor.runPipeline] at h0 h1
          cases hsq : (E.runSequential names ctx).2 with
          | error e =>
              simp only [hsq] at h1
              rw [List.get?_cons_succ] at h1
              simp at h1
          | ok p0 =>
              obtain ⟨rs0, ctx1⟩ := p0
              simp only [hsq] at h0 h1
              cases hac : accumStep ctx1 rs0 with
              | error e =>
                  simp only [hac] at h1
                  rw [List.get?_cons_succ] at h1
                  simp at h1
              | ok p =>
                  obtain ⟨ctx2, f⟩ := p
                  simp only [hac] at h0 h1
                  cases m with
                  | zero =>
                      have hhead := head_some _ _ _ h0
                      injection hhead with _ hb
                      rw [List.get?_cons_succ] at h1
                      have hc1 : cm1 = ctx2 :=
                        runPipeline_first_record E rest ctx2 cm1 rsm1 h1
                      rw [← hb] at hnd hr
                      rw [hc1]
                      exact accum_lookup rs0 ctx1 ctx2 f hac hnd r hr
                  | succ m' =>
                      rw [List.get?_cons_succ] at h0 h1
                      exact ih ctx2 m' cm cm1 rsm rsm1 h0 h1 hnd r hr

/-- C6: within a sequential pipeline step whose names are distinct and not
yet present in `prior_results`, the handler for the j-th name observes in
its context's `prior_results` exactly the results of the earlier names of
the same step (each under its name, serialized with `to_dict`) and never a
result of the name itself or of a later name; and after every step
(parallel or sequential) each of the step's results is present in
`prior_results` of the running context with which the next step begins. -/
theorem pipeline_prior_results_visibility :
    (∀ (E : SkillExecutor) (names : List String) (ctx p0 : PyDict Value),
      (PyDict.get? ctx "prior_results").getD (.dict []) = .dict p0 →
      names.Nodup →
      (∀ n ∈ names, PyDict.get? p0 n = none) →
      ∀ (tr : List (String × PyDict Value)) (rs : List SkillResult) (ctxF : PyDict Value),
        E.runSequential names ctx = (tr, .ok (rs, ctxF)) →
        ∀ (j : Nat) (nj : String) (cj : PyDict Value), tr.get? j = some (nj, cj) →
          (∀ i ni, i < j → names.get? i = some ni →
            ∃ ri, rs.get? i = some ri ∧
              priorLookup (E.handlerCtx cj) ni = some (.dict ri.to_dict)) ∧
          (∀ k nk, j ≤ k → names.get? k = some nk →
            priorLookup (E.handlerCtx cj) nk = none)) ∧
    (∀ (E : SkillExecutor) (steps : List PipelineStep) (ctx : PyDict Value)
      (m : Nat) (cm cm1 : PyDict Value) (rsm rsm1 : List SkillResult),
      (E.runPipeline steps ctx).1.get? m = some (cm, rsm) →
      (E.runPipeline steps ctx).1.get? (m + 1) = some (cm1, rsm1) →
      (rsm.map (fun r => r.skill_name)).Nodup →
      ∀ r ∈ rsm, priorLookup cm1 r.skill_name = some (.dict r.to_dict)) := by
  constructor
  · intro E names ctx p0 hp hnd hfresh tr rs ctxF hrun j nj cj htr
    obtain ⟨ha, hb, _⟩ := runSequential_trace E names ctx p0 hp hnd hfresh tr rs ctxF hrun j nj cj htr
    constructor
    · intro i ni hi hni
      obtain ⟨ri, hri, hpl⟩ := ha i ni hi hni
      exact ⟨ri, hri, by rw [priorLookup_handlerCtx]; exact hpl⟩
    · intro k nk hk hkn
      rw [priorLookup_handlerCtx]
      exact hb k nk hk hkn
  · exact fun E steps ctx m cm cm1 rsm rsm1 h0 h1 hnd r hr =>
      runPipeline_merge E steps ctx m cm cm1 rsm rsm1 h0 h1 hnd r hr

/-- Executor for the C6 witness: two well-behaved handlers. -/
def c6WitnessExecutor : SkillExecutor :=
  { registry := [("a", ()), ("b", ())],
    handlers := fun n =>
      if n = "a" then some (fun _ _ => .ok [("confidence", Value.rat (mkRat 9 10))])
      else if n = "b" then some (fun _ _ => .ok [("confidence", Value.rat (mkRat 7 10))])
      else none,
    graph_store := .null }

/-- The sequential-step run of the C6 witness. -/
def c6SeqRun :
    List (String × PyDict Value) × Except PyExc (List SkillResult × PyDict Value) :=
  c6WitnessExecutor.runSequential ["a", "b"] []

/-- Results of the C6 witness sequential step. -/
def c6WitnessResults : List SkillResult :=
  ((c6SeqRun.2.toOption).map (fun p => p.1)).getD []

/-- Final context of the C6 witness sequential step. -/
def c6WitnessCtxF : PyDict Value :=
  ((c6SeqRun.2.toOption).map (fun p => p.2)).getD []

/-- The running context at the moment the witness step executes "b". -/
def c6WitnessTraceCtx : PyDict Value :=
  ((c6SeqRun.1.get? 1).map (fun p => p.2)).getD []

/-- The two-step pipeline of the C6 witness. -/
def c6Pipeline : List PipelineStep :=
  [.sequential ["a"], .sequential ["b"]]

/-- Step records of the C6 witness pipeline run. -/
def c6PipeRecords : List (PyDict Value × List SkillResult) :=
  (c6WitnessExecutor.runPipeline c6Pipeline []).1

/-- Results of the first step of the C6 witness pipeline. -/
def c6Rec0Results : List SkillResult :=
  ((c6PipeRecords.get? 0).map (fun p => p.2)).getD []

/-- Entry context of the second step of the C6 witness pipeline. -/
def c6PipeRec1Ctx : PyDict Value :=
  ((c6PipeRecords.get? 1).map (fun p => p.1)).getD []

/-- Results of the second step of the C6 witness pipeline. -/
def c6Rec1Results : List SkillResult :=
  ((c6PipeRecords.get? 1).map (fun p => p.2)).getD []

/-- The result of skill "a" in the first step of the C6 witness pipeline. -/
def c6AResult : SkillResult :=
  (c6Rec0Results.get? 0).getD (SkillResult.error_result "x" "y")

/-- Witness for C6 at a concrete executor: in the sequential step
["a", "b"], the handler for "b" observes the result of "a" and does not
observe "b"; and the second pipeline step begins with the first step's
result merged into prior_results. -/
theorem pipeline_prior_results_visibility_witness :
    (∃ ri, c6WitnessResults.get? 0 = some ri ∧
      priorLookup (c6WitnessExecutor.handlerCtx c6WitnessTraceCtx) "a" =
        some (.dict ri.to_dict)) ∧
    priorLookup (c6WitnessExecutor.handlerCtx c6WitnessTraceCtx) "b" = none ∧
    priorLookup c6PipeRec1Ctx c6AResult.skill_name = some (.dict c6AResult.to_dict) := by
  have hpart1 := (pipeline_prior_results_visibility.1 c6WitnessExecutor ["a", "b"] [] []
    rfl (by decide) (fun n _ => rfl) c6SeqRun.1 c6WitnessResults c6WitnessCtxF rfl
    1 "b" c6WitnessTraceCtx rfl)
  refine ⟨hpart1.1 0 "a" (by decide) rfl, hpart1.2 1 "b" (by decide) rfl, ?_⟩
  exact pipeline_prior_results_visibility.2 c6WitnessExecutor c6Pipeline [] 0
    [] c6PipeRec1Ctx c6Rec0Results c6Rec1Results rfl rfl (by decide)
    c6AResult (by rw [show c6Rec0Results = [c6AResult] from rfl]; exact List.mem_cons_self _ _)

/-- Whether an embedded Python computation returned normally. -/
def exceptIsOk {ε α : Type} : Except ε α → Bool
  | .ok _ => true
  | .error _ => false

/-- Executor for the C7 failing input: skill "a"'s handler returns normally
with `{"confidence": 0.2, "data": 17}` (in-contract: the handler contract
declares `data: any`); skill "b"'s handler is well-behaved. -/
def c7Executor : SkillExecutor :=
  { registry := [("a", ()), ("b", ())],
    handlers := fun n =>
      if n = "a" then
        some (fun _ _ => .ok [("confidence", Value.rat (mkRat 2 10)), ("data", Value.int 17)])
      else if n = "b" then
        some (fun _ _ => .ok [("confidence", Value.rat (mkRat 9 10))])
      else none,
    graph_store := .null }

/-- C7 (evaluation of the code at the failing input): the pipeline
[{"sequential": ["a", "b"]}] does NOT run to completion.  Routing "a"'s
low-confidence result calls `_truncate_data(17)`, whose `len(17)` raises
`TypeError` outside the `try` block of `execute`; the exception escapes
`execute` and aborts `execute_pipeline`, so "b" never executes and no
summary (hence no `failed` list) is produced -- contradicting the claim
that every step runs to completion regardless of failures. -/
theorem execute_pipeline_abort_bug :
    exceptIsOk (c7Executor.execute_pipeline [PipelineStep.sequential ["a", "b"]] []) = false ∧
    c7Executor.execute_pipeline [PipelineStep.sequential ["a", "b"]] [] =
      .error ⟨"TypeError", "object of type int has no len()"⟩ ∧
    (c7Executor.runPipeline [PipelineStep.sequential ["a", "b"]] []).1 = [([], [])] :=
  ⟨rfl, rfl, rfl⟩

/-! Registry (`registry.py`): descriptors, trigger matching, scan. -/

/-- Metadata about a single registered skill (`SkillDescriptor`).  Fields the
source stores raw from the parsed metadata keep the dynamic `Value` type;
`name`, `version` and `path` are strings in every code path the claims
exercise. -/
structure SkillDescriptor where
  name : String
  description : Value
  version : String
  tags : Value
  triggers : Value
  confidence_threshold : ℚ
  mcp_server : Value
  path : String
  raw_meta : PyDict Value

/-- Python `str.lower()`, modelled character-wise (ASCII case folding; the
skill texts the engine compares are ASCII). -/
def pyLower (s : String) : String := ⟨s.data.map Char.toLower⟩

/-- Python iteration (`for x in v`): lists yield elements, strings yield
one-character strings, dicts yield keys; other values raise `TypeError`. -/
def pyIter : Value → Except PyExc (List Value)
  | .list xs => .ok xs
  | .str s => .ok (s.toList.map (fun c => .str (String.singleton c)))
  | .dict xs => .ok (xs.map (fun kv => .str kv.1))
  | _ => .error ⟨"TypeError", "object is not iterable"⟩

/-- Python `any(f(x) for x in xs)`: short-circuits on the first true and on
the first raised exception. -/
def anyShortM : List Value → (Value → Except PyExc Bool) → Except PyExc Bool
  | [], _ => .ok false
  | x :: xs, f =>
      match f x with
      | .error e => .error e
      | .ok true => .ok true
      | .ok false => anyShortM xs f

/-- Python `needle in hay` on strings: contiguous-substring test. -/
def isSubChain : List Char → List Char → Bool
  | needle, [] => needle.isEmpty
  | needle, c :: rest => needle.isPrefixOf (c :: rest) || isSubChain needle rest

/-- Method `matches_trigger`: true when any trigger record's `pattern`
(defaulting to the empty string) is a case-insensitive substring of the
text.  Iterating a non-list `triggers` value or calling `.get`/`.lower` on
an ill-typed record raises, as in the source. -/
def SkillDescriptor.matches_trigger (d : SkillDescriptor) (text : String) :
    Except PyExc Bool :=
  match pyIter d.triggers with
  | .error e => .error e
  | .ok ts =>
      anyShortM ts (fun trigger =>
        match trigger with
        | .dict tr =>
            match (PyDict.get? tr "pattern").getD (.str "") with
            | .str p => .ok (isSubChain (pyLower p).data (pyLower text).data)
            | _ => .error ⟨"AttributeError", "object has no attribute lower"⟩
        | _ => .error ⟨"AttributeError", "object has no attribute get"⟩)

/-- Registry state: the `_skills` dict in insertion order, the collected
`_validation_warnings`, and the messages emitted through `logger.warning`
(the channel on which duplicate-name collisions are recorded). -/
structure SkillRegistryState where
  skills : PyDict SkillDescriptor
  validation_warnings : List String
  log_warnings : List String

/-- Stable insertion (ascending by `name`) used to model Python's stable
`sorted(self._skills.values(), key=lambda s: s.name)`. -/
def insertByName (d : SkillDescriptor) : List SkillDescriptor → List SkillDescriptor
  | [] => [d]
  | x :: xs =>
      if d.name.data < x.name.data then d :: x :: xs else x :: insertByName d xs

/-- Stable sort by `name` (insertion sort). -/
def sortByName (l : List SkillDescriptor) : List SkillDescriptor :=
  l.foldl (fun acc d => insertByName d acc) []

/-- Registry property `skills`: all registered descriptors in alphabetical
name order. -/
def SkillRegistryState.skillsList (st : SkillRegistryState) : List SkillDescriptor :=
  sortByName (st.skills.map (fun kv => kv.2))

/-- The list comprehension `[s for s in self.skills if s.matches_trigger(text)]`:
evaluated left to right, the first raised exception propagates. -/
def filterExcept : List SkillDescriptor → (SkillDescriptor → Except PyExc Bool) →
    Except PyExc (List SkillDescriptor)
  | [], _ => .ok []
  | x :: xs, f =>
      match f x with
      | .error e => .error e
      | .ok b =>
          match filterExcept xs f with
          | .error e => .error e
          | .ok r => .ok (if b then x :: r else r)

/-- Method `match_trigger`: the registered skills whose triggers match the
text. -/
def SkillRegistryState.match_trigger (st : SkillRegistryState) (text : String) :
    Except PyExc (List SkillDescriptor) :=
  filterExcept st.skillsList (fun s => s.matches_trigger text)

/-- A skill definition file as the scan sees it after frontmatter parsing:
its path, its directory's name (the fallback skill name) and the parsed
metadata dict (empty when no frontmatter block was found).  Filesystem
traversal and the frontmatter parser `_parse_yaml_frontmatter` are
abstracted: `scan` is modelled over the ordered list of parsed files that
`sorted(self.skills_dir.iterdir())` yields. -/
structure SkillFile where
  path : String
  parentName : String
  meta : PyDict Value

/-- The required metadata fields (`_REQUIRED_FIELDS`). -/
def requiredFields : List String := ["name", "description", "version"]

/-- Whether a metadata value is a list. -/
def isListValue : Value → Bool
  | .list _ => true
  | _ => false

/-- Helper `_validate_meta`: required-field and type checks, returned as
warning strings (empty means valid). -/
def validate_meta (meta : PyDict Value) (path : String) : List String :=
  (requiredFields.filterMap (fun fl =>
    if (PyDict.get? meta fl).isNone then
      some (path ++ ": missing required field '" ++ fl ++ "'")
    else none))
  ++ (match PyDict.get? meta "tags" with
      | some v => if isListValue v then [] else [path ++ ": 'tags' should be a list"]
      | none => [])
  ++ (match PyDict.get? meta "trigger" with
      | some v => if isListValue v then [] else [path ++ ": 'trigger' should be a list"]
      | none => [])
  ++ (match PyDict.get? meta "confidence_threshold" with
      | none => []
      | some .null => []
      | some v =>
          match pyFloat v with
          | .ok val =>
              if 0 ≤ val ∧ val ≤ 1 then []
              else [path ++ ": confidence_threshold " ++ pyStr (.rat val) ++ " outside [0, 1]"]
          | .error _ => [path ++ ": confidence_threshold is not a number"])

/-- The registered name: `meta.get("name", path.parent.name)`.  A non-string
name value would be used as a raw dict key by the source; the model renders
it with `pyStr` (no theorem depends on non-string names). -/
def nameFromMeta (f : SkillFile) : String :=
  match PyDict.get? f.meta "name" with
  | some (.str s) => s
  | some v => pyStr v
  | none => f.parentName

/-- Descriptor construction inside `_register_from_file`;
`float(meta.get("confidence_threshold", 0.5))` can raise, which the scan
loop catches per file. -/
def descriptorOf (f : SkillFile) : Except PyExc SkillDescriptor :=
  match pyFloat ((PyDict.get? f.meta "confidence_threshold").getD (.rat (mkRat 1 2))) with
  | .error e => .error e
  | .ok threshold =>
      .ok { name := nameFromMeta f,
            description := (PyDict.get? f.meta "description").getD (.str ""),
            version := pyStr ((PyDict.get? f.meta "version").getD (.str "0.0.0")),
            tags := (PyDict.get? f.meta "tags").getD (.list []),
            triggers := (PyDict.get? f.meta "trigger").getD (.list []),
            confidence_threshold := threshold,
            mcp_server := (PyDict.get? f.meta "mcp_server").getD .null,
            path := f.path,
            raw_meta := f.meta }

/-- Method `_register_from_file` composed with `scan`'s per-file exception
handling, in non-strict mode (strict mode re-raises out of `scan`; no claim
involves it): missing frontmatter warns and skips, validation warnings are
collected, a raised descriptor build warns and skips, and a duplicate name
logs a collision warning before the new descriptor overwrites the old. -/
def registerFromFile (st : SkillRegistryState) (f : SkillFile) : SkillRegistryState :=
  if f.meta.isEmpty then
    let msg := f.path ++ ": no YAML frontmatter found"
    { st with validation_warnings := st.validation_warnings ++ [msg],
              log_warnings := st.log_warnings ++ [msg] }
  else
    let ws := validate_meta f.meta f.path
    let st1 := { st with validation_warnings := st.validation_warnings ++ ws }
    match descriptorOf f with
    | .error e =>
        let msg := "Failed to parse " ++ f.path ++ ": " ++ e.msg
        { st1 with validation_warnings := st1.validation_warnings ++ [msg],
                   log_warnings := st1.log_warnings ++ [msg] }
    | .ok d =>
        let nm := nameFromMeta f
        let st2 :=
          if (PyDict.get? st1.skills nm).isSome then
            { st1 with log_warnings := st1.log_warnings ++
                ["Duplicate skill name '" ++ nm ++ "' -- overwriting"] }
          else st1
        { st2 with skills := PyDict.set st2.skills nm d }

/-- Method `scan`: clear the state, then register each discovered file in
directory order. -/
def scan (files : List SkillFile) : SkillRegistryState :=
  files.foldl registerFromFile ⟨[], [], []⟩

/-- The name under which a file ends up registered by a scan, `none` when
the file is skipped (no frontmatter, or the descriptor build raised). -/
def registersAs (f : SkillFile) : Option String :=
  if f.meta.isEmpty then none
  else
    match descriptorOf f with
    | .ok _ => some (nameFromMeta f)
    | .error _ => none

/-! Lemmas about `scan` and duplicate-name registration. -/

theorem registersAs_some_spec (f : SkillFile) (n : String)
    (h : registersAs f = some n) :
    f.meta.isEmpty = false ∧ ∃ d, descriptorOf f = .ok d ∧ nameFromMeta f = n := by
  unfold registersAs at h
  by_cases hme : f.meta.isEmpty
  · rw [if_pos hme] at h
    exact Option.noConfusion h
  · rw [if_neg hme] at h
    rw [Bool.not_eq_true] at hme
    cases hdo : descriptorOf f with
    | error e => rw [hdo] at h; exact Option.noConfusion h
    | ok d => rw [hdo] at h; exact ⟨hme, d, rfl, Option.some.inj h⟩

theorem registerFromFile_skills_set (st : SkillRegistryState) (f : SkillFile)
    (d : SkillDescriptor) (hme : f.meta.isEmpty = false)
    (hdo : descriptorOf f = .ok d) :
    (registerFromFile st f).skills = PyDict.set st.skills (nameFromMeta f) d := by
  unfold registerFromFile
  rw [hme]
  simp only [Bool.false_eq_true, if_false, hdo]
  by_cases hp : (PyDict.get? st.skills (nameFromMeta f)).isSome <;> simp [hp]

theorem registerFromFile_skills_skip (st : SkillRegistryState) (f : SkillFile)
    (h : registersAs f = none) : (registerFromFile st f).skills = st.skills := by
  unfold registersAs at h
  unfold registerFromFile
  by_cases hme : f.meta.isEmpty
  · rw [if_pos hme] at h ⊢
  · rw [if_neg hme] at h ⊢
    cases hdo : descriptorOf f with
    | error e => simp [hdo]
    | ok d => rw [hdo] at h; exact Option.noConfusion h

theorem registerFromFile_get_ne (st : SkillRegistryState) (f : SkillFile) (n : String)
    (h : registersAs f ≠ some n) :
    PyDict.get? (registerFromFile st f).skills n = PyDict.get? st.skills n := by
  cases hra : registersAs f with
  | none => rw [registerFromFile_skills_skip st f hra]
  | some m =>
      obtain ⟨hme, d, hdo, hname⟩ := registersAs_some_spec f m hra
      rw [registerFromFile_skills_set st f d hme hdo, hname]
      refine PyDict.get?_set_ne st.skills m n d (fun he => h ?_)
      rw [hra, he]

theorem registerFromFile_log_mono (st : SkillRegistryState) (f : SkillFile)
    (x : String) (hx : x ∈ st.log_warnings) :
    x ∈ (registerFromFile st f).log_warnings := by
  unfold registerFromFile
  by_cases hme : f.meta.isEmpty
  · simp [hme, List.mem_append, hx]
  · simp only [hme, if_false, Bool.false_eq_true]
    cases hdo : descriptorOf f with
    | error e => simp [List.mem_append, hx]
    | ok d =>
        by_cases hp : (PyDict.get? st.skills (nameFromMeta f)).isSome <;>
          simp [hp, List.mem_append, hx]

theorem registerFromFile_dup_warn (st : SkillRegistryState) (f : SkillFile)
    (n : String) (hreg : registersAs f = some n)
    (hpresent : (PyDict.get? st.skills n).isSome) :
    ("Duplicate skill name '" ++ n ++ "' -- overwriting")
      ∈ (registerFromFile st f).log_warnings := by
  obtain ⟨hme, d, hdo, hname⟩ := registersAs_some_spec f n hreg
  unfold registerFromFile
  rw [hme]
  simp only [Bool.false_eq_true, if_false, hdo]
  rw [hname]
  simp [hpresent, List.mem_append]

theorem scan_fold_log_mono (files : List SkillFile) :
    ∀ (st : SkillRegistryState) (x : String), x ∈ st.log_warnings →
      x ∈ (files.foldl registerFromFile st).log_warnings := by
  induction files with
  | nil => intro st x hx; exact hx
  | cons f fs ih => intro st x hx; exact ih _ x (registerFromFile_log_mono st f x hx)

theorem scan_fold_get (files : List SkillFile) :
    ∀ (st : SkillRegistryState) (n : String),
      PyDict.get? ((files.foldl registerFromFile st).skills) n =
        ((files.reverse.find? (fun f => decide (registersAs f = some n))).map
          (fun g => (descriptorOf g).toOption)).getD (PyDict.get? st.skills n) := by
  induction files with
  | nil => intro st n; rfl
  | cons f fs ih =>
      intro st n
      rw [List.foldl_cons, ih (registerFromFile st f) n, List.reverse_cons,
        List.find?_append]
      cases hf : fs.reverse.find? (fun f => decide (registersAs f = some n)) with
      | some g => rfl
      | none =>
          simp only [Option.none_or, Option.map_none', Option.getD_none]
          by_cases hreg : registersAs f = some n
          · obtain ⟨hme, d, hdo, hname⟩ := registersAs_some_spec f n hreg
            have hfind : [f].find? (fun f => decide (registersAs f = some n)) = some f := by
              simp [List.find?, hreg]
            rw [hfind]
            simp only [Option.map_some', Option.getD_some]
            rw [registerFromFile_skills_set st f d hme hdo, hname,
              PyDict.get?_set_self, hdo]
            rfl
          · have hfind : [f].find? (fun f => decide (registersAs f = some n)) = none := by
              simp [List.find?, hreg]
            rw [hfind]
            simp only [Option.map_none', Option.getD_none]
            exact registerFromFile_get_ne st f n hreg

theorem scan_fold_present (pre : List SkillFile) (st : SkillRegistryState)
    (n : String) (fi : SkillFile) (hi : fi ∈ pre) (hri : registersAs fi = some n) :
    (PyDict.get? ((pre.foldl registerFromFile st).skills) n).isSome := by
  rw [scan_fold_get pre st n]
  cases hf : pre.reverse.find? (fun f => decide (registersAs f = some n)) with
  | none =>
      exfalso
      have := List.find?_eq_none.mp hf fi (List.mem_reverse.mpr hi)
      simp [hri] at this
  | some g =>
      have hg := List.find?_some hf
      simp only [decide_eq_true_eq] at hg
      obtain ⟨_, d, hdo, _⟩ := registersAs_some_spec g n hg
      simp [hdo, Except.toOption]

/-- C8: when several scanned definition files register the same skill name,
the registry ends up with exactly the descriptor of the last such file in
scan order, and a duplicate-name warning is logged for the collision. -/
theorem scan_duplicate_last_wins (pre post : List SkillFile) (fj fi : SkillFile)
    (n : String) (hi : fi ∈ pre) (hri : registersAs fi = some n)
    (hrj : registersAs fj = some n)
    (hpost : ∀ f ∈ post, registersAs f ≠ some n) :
    (∃ d, descriptorOf fj = .ok d ∧
      PyDict.get? (scan (pre ++ fj :: post)).skills n = some d) ∧
    ("Duplicate skill name '" ++ n ++ "' -- overwriting")
      ∈ (scan (pre ++ fj :: post)).log_warnings := by
  obtain ⟨hme, d, hdo, hname⟩ := registersAs_some_spec fj n hrj
  constructor
  · refine ⟨d, hdo, ?_⟩
    unfold scan
    rw [scan_fold_get (pre ++ fj :: post) ⟨[], [], []⟩ n]
    have hrev : (pre ++ fj :: post).reverse = post.reverse ++ fj :: pre.reverse := by
      rw [List.reverse_append, List.reverse_cons, List.append_assoc]
      rfl
    rw [hrev, List.find?_append]
    have hpostnone : post.reverse.find? (fun f => decide (registersAs f = some n)) = none := by
      refine List.find?_eq_none.mpr (fun x hx => ?_)
      simp only [decide_eq_true_eq]
      exact hpost x (List.mem_reverse.mp hx)
    rw [hpostnone]
    simp only [Option.none_or]
    have hfj : (fj :: pre.reverse).find? (fun f => decide (registersAs f = some n)) = some fj := by
      simp [List.find?, hrj]
    rw [hfj]
    simp [hdo, Except.toOption]
  · unfold scan
    rw [List.foldl_append, List.foldl_cons]
    refine scan_fold_log_mono post _ _ ?_
    refine registerFromFile_dup_warn _ fj n hrj ?_
    exact scan_fold_present pre ⟨[], [], []⟩ n fi hi hri

/-- First file of the C8 witness: declares name "x". -/
def c8File1 : SkillFile :=
  { path := "skills/one/SKILL.md", parentName := "one",
    meta := [("name", .str "x"), ("description", .str "first"), ("version", .str "1.0.0")] }

/-- Second file of the C8 witness: also declares name "x". -/
def c8File2 : SkillFile :=
  { path := "skills/two/SKILL.md", parentName := "two",
    meta := [("name", .str "x"), ("description", .str "second"), ("version", .str "2.0.0")] }

/-- Witness for C8 at a concrete two-file scan with colliding name "x". -/
theorem scan_duplicate_last_wins_witness :
    (∃ d, descriptorOf c8File2 = .ok d ∧
      PyDict.get? (scan [c8File1, c8File2]).skills "x" = some d) ∧
    ("Duplicate skill name '" ++ "x" ++ "' -- overwriting")
      ∈ (scan [c8File1, c8File2]).log_warnings :=
  scan_duplicate_last_wins [c8File1] [] c8File2 c8File1 "x"
    (List.mem_singleton_self c8File1) rfl rfl
    (fun f hf => absurd hf (List.not_mem_nil f))

/-! Trigger matching lemmas and C10. -/

theorem isSubChain_nil (hay : List Char) : isSubChain [] hay = true := by
  cases hay <;> rfl

theorem mem_insertByName (x d : SkillDescriptor) (l : List SkillDescriptor) :
    x ∈ insertByName d l ↔ x = d ∨ x ∈ l := by
  induction l with
  | nil => simp [insertByName]
  | cons y ys ih =>
      by_cases h : d.name.data < y.name.data
      · simp [insertByName, h, List.mem_cons]
      · simp only [insertByName, h, if_false, List.mem_cons, ih]
        tauto

theorem mem_sortFold (l : List SkillDescriptor) :
    ∀ (acc : List SkillDescriptor) (x : SkillDescriptor),
      x ∈ l.foldl (fun acc d => insertByName d acc) acc ↔ x ∈ acc ∨ x ∈ l := by
  induction l with
  | nil => intro acc x; simp
  | cons d ds ih =>
      intro acc x
      rw [List.foldl_cons, ih (insertByName d acc) x, mem_insertByName]
      simp only [List.mem_cons]
      tauto

theorem mem_skillsList (st : SkillRegistryState) (x : SkillDescriptor) :
    x ∈ st.skillsList ↔ x ∈ st.skills.map (fun kv => kv.2) := by
  unfold SkillRegistryState.skillsList sortByName
  rw [mem_sortFold]
  simp

theorem anyShortM_ok_true (ts : List Value) (f : Value → Except PyExc Bool) :
    (∀ t ∈ ts, ∃ b, f t = .ok b) →
    (∃ t ∈ ts, f t = .ok true) →
    anyShortM ts f = .ok true := by
  induction ts with
  | nil =>
      intro _ hex
      obtain ⟨t, ht, _⟩ := hex
      simp at ht
  | cons x xs ih =>
      intro hwf hex
      obtain ⟨b, hb⟩ := hwf x (List.mem_cons_self x xs)
      cases b with
      | true => simp [anyShortM, hb]
      | false =>
          simp only [anyShortM, hb]
          refine ih (fun t ht => hwf t (List.mem_cons_of_mem x ht)) ?_
          obtain ⟨t, ht, htt⟩ := hex
          rcases List.mem_cons.mp ht with rfl | ht'
          · rw [hb] at htt
            injection htt with he
            exact Bool.noConfusion he
          · exact ⟨t, ht', htt⟩

theorem filterExcept_mem_of (l : List SkillDescriptor)
    (f : SkillDescriptor → Except PyExc Bool) :
    ∀ (out : List SkillDescriptor), filterExcept l f = .ok out →
      ∀ x ∈ l, f x = .ok true → x ∈ out := by
  induction l with
  | nil =>
      intro out _ x hx
      simp at hx
  | cons y ys ih =>
      intro out h x hx hfx
      simp only [filterExcept] at h
      cases hfy : f y with
      | error e => simp [hfy] at h
      | ok b =>
          simp only [hfy] at h
          cases hrec : filterExcept ys f with
          | error e => simp [hrec] at h
          | ok r =>
              simp only [hrec] at h
              injection h with h
              subst h
              rcases List.mem_cons.mp hx with rfl | hx'
              · rw [hfx] at hfy
                injection hfy with hb
                rw [← hb]
                simp
              · have hxr := ih r hrec x hx' hfx
                by_cases hb : b <;> simp [hb, hxr, List.mem_cons]

theorem filterExcept_all_true (l : List SkillDescriptor)
    (f : SkillDescriptor → Except PyExc Bool) :
    ∀ (out : List SkillDescriptor), filterExcept l f = .ok out →
      ∀ x ∈ out, f x = .ok true := by
  induction l with
  | nil =>
      intro out h x hx
      injection h with h
      subst h
      simp at hx
  | cons y ys ih =>
      intro out h x hx
      simp only [filterExcept] at h
      cases hfy : f y with
      | error e => simp [hfy] at h
      | ok b =>
          simp only [hfy] at h
          cases hrec : filterExcept ys f with
          | error e => simp [hrec] at h
          | ok r =>
              simp only [hrec] at h
              injection h with h
              subst h
              by_cases hb : b
              · subst hb
                rw [if_pos rfl] at hx
                rcases List.mem_cons.mp hx with rfl | hx'
                · exact hfy
                · exact ih r hrec x hx'
              · rw [if_neg hb] at hx
                exact ih r hrec x hx

theorem matches_trigger_empty_pat (d : SkillDescriptor) (ts : List Value)
    (htr : d.triggers = .list ts)
    (hwf : ∀ t ∈ ts, ∃ tr, t = Value.dict tr ∧
      (PyDict.get? tr "pattern" = none ∨ ∃ p, PyDict.get? tr "pattern" = some (.str p)))
    (hemp : ∃ t ∈ ts, ∃ tr, t = Value.dict tr ∧
      (PyDict.get? tr "pattern" = none ∨ PyDict.get? tr "pattern" = some (.str "")))
    (text : String) : d.matches_trigger text = .ok true := by
  unfold SkillDescriptor.matches_trigger
  rw [htr]
  simp only [pyIter]
  refine anyShortM_ok_true ts _ ?_ ?_
  · intro t ht
    obtain ⟨tr, rfl, hpat⟩ := hwf t ht
    rcases hpat with hnone | ⟨p, hp⟩
    · exact ⟨isSubChain (pyLower "").data (pyLower text).data, by simp [hnone]⟩
    · exact ⟨isSubChain (pyLower p).data (pyLower text).data, by simp [hp]⟩
  · obtain ⟨t, ht, tr, rfl, hpat⟩ := hemp
    refine ⟨Value.dict tr, ht, ?_⟩
    rcases hpat with hnone | hp
    · simp only [hnone, Option.getD_none]
      exact congrArg Except.ok (isSubChain_nil ((pyLower text).data))
    · simp only [hp, Option.getD_some]
      exact congrArg Except.ok (isSubChain_nil ((pyLower text).data))

theorem matches_trigger_no_triggers (d : SkillDescriptor)
    (htr : d.triggers = .list []) (text : String) :
    d.matches_trigger text = .ok false := by
  unfold SkillDescriptor.matches_trigger
  rw [htr]
  rfl

/-- C10: a registered descriptor owning a trigger record whose pattern key
is absent or maps to the empty string (its trigger records otherwise
well-formed) is returned by `match_trigger` for every input text, because
the empty pattern is a substring of every string; a registered descriptor
whose triggers list is empty is returned for no text. -/
theorem match_trigger_empty_pattern (st : SkillRegistryState) (d : SkillDescriptor) :
    (∀ ts : List Value,
      d.triggers = .list ts →
      (∀ t ∈ ts, ∃ tr, t = Value.dict tr ∧
        (PyDict.get? tr "pattern" = none ∨ ∃ p, PyDict.get? tr "pattern" = some (.str p))) →
      (∃ t ∈ ts, ∃ tr, t = Value.dict tr ∧
        (PyDict.get? tr "pattern" = none ∨ PyDict.get? tr "pattern" = some (.str ""))) →
      d ∈ st.skillsList →
      ∀ (text : String) (out : List SkillDescriptor),
        st.match_trigger text = .ok out → d ∈ out) ∧
    (d.triggers = .list [] →
      ∀ (text : String) (out : List SkillDescriptor),
        st.match_trigger text = .ok out → d ∉ out) := by
  constructor
  · intro ts htr hwf hemp hmem text out hout
    exact filterExcept_mem_of st.skillsList _ out hout d hmem
      (matches_trigger_empty_pat d ts htr hwf hemp text)
  · intro htr text out hout hdout
    have hall := filterExcept_all_true st.skillsList _ out hout d hdout
    rw [matches_trigger_no_triggers d htr text] at hall
    injection hall with hb
    exact Bool.noConfusion hb

/-- Descriptor with one empty trigger record for the C10 witness. -/
def c10MatchAll : SkillDescriptor :=
  { name := "all", description := .str "", version := "1.0.0", tags := .list [],
    triggers := .list [.dict []], confidence_threshold := mkRat 1 2,
    mcp_server := .null, path := "", raw_meta := [] }

/-- Descriptor with an empty triggers list for the C10 witness. -/
def c10NoTrig : SkillDescriptor :=
  { name := "zeta", description := .str "", version := "1.0.0", tags := .list [],
    triggers := .list [], confidence_threshold := mkRat 1 2,
    mcp_server := .null, path := "", raw_meta := [] }

/-- Registry state for the C10 witness. -/
def c10State : SkillRegistryState :=
  { skills := [("all", c10MatchAll), ("zeta", c10NoTrig)],
    validation_warnings := [], log_warnings := [] }

/-- Output of `match_trigger` on an unrelated text for the C10 witness. -/
def c10Out : List SkillDescriptor :=
  ((c10State.match_trigger "completely unrelated text").toOption).getD []

/-- Witness for C10 at a concrete registry: the empty-pattern descriptor is
matched by an unrelated text, the trigger-less one is not. -/
theorem match_trigger_empty_pattern_witness :
    c10MatchAll ∈ c10Out ∧ c10NoTrig ∉ c10Out := by
  have h : c10State.match_trigger "completely unrelated text" = .ok c10Out := rfl
  constructor
  · refine (match_trigger_empty_pattern c10State c10MatchAll).1 [.dict []] rfl
      ?_ ⟨.dict [], List.mem_singleton_self _, [], rfl, Or.inl rfl⟩ ?_
      "completely unrelated text" c10Out h
    · intro t ht
      rw [List.mem_singleton] at ht
      subst ht
      exact ⟨[], rfl, Or.inl rfl⟩
    · rw [show c10State.skillsList = [c10MatchAll, c10NoTrig] from rfl]
      exact List.mem_cons_self _ _
  · exact (match_trigger_empty_pattern c10State c10NoTrig).2 rfl
      "completely unrelated text" c10Out h
